import Mathlib

/-!
Verification development for the keithley_6487 repository.

The repository drives two source-measure instruments over VISA.  This file
gives a shallow embedding of the checkable parts of the code:

* Python string primitives (strip, split, replace) over `List Char`;
* the reply parser of the 6487 picoammeter
  (Keithley6487._parse_current_from_read in
  src/new_version/instruments/keithley6487.py);
* the error-check helpers get_error / check_error of the same class;
* the sweep and hold control loops of Runner.run
  (src/new_version/runner.py), modelled as trace-producing functions
  with the stop flag supplied as an oracle over iteration indices;
* the sweep-table constructions of the standalone scripts
  (src/iv_sweep_live.py and src/voltage_sweep.py);
* the shutdown sequence of Runner.run and KeithleyBase.close, modelled
  in an exception-aware trace semantics;
* the CSV schemas written by the runner and the scripts.

Python floats are embedded as exact rationals; machine rounding is not
modelled, so arithmetic facts hold in the exact-arithmetic reading.
-/

/-! ## Python string primitives -/

/-- Python whitespace characters as used by str.strip. -/
def isPySpace (c : Char) : Bool :=
  c = ' ' || c = '\t' || c = '\n' || c = '\r' || c.toNat = 11 || c.toNat = 12

/-- Python str.strip: remove leading and trailing whitespace. -/
def pyStrip (s : List Char) : List Char :=
  ((s.dropWhile isPySpace).reverse.dropWhile isPySpace).reverse

/-- First element of Python s.split with a comma: the characters before the
first comma (the whole string when there is no comma). -/
def firstCommaField (s : List Char) : List Char :=
  s.takeWhile (fun c => c ≠ ',')

/-- Python s.replace applied with the capital letter A and the empty string:
drop every occurrence of that character. -/
def removeAllA (s : List Char) : List Char :=
  s.filter (fun c => c ≠ 'A')

/-- The cleaned first field used by Keithley6487._parse_current_from_read:
resp.strip().split(",")[0].strip().replace("A",""). -/
def cleanField (resp : List Char) : List Char :=
  removeAllA (pyStrip (firstCommaField (pyStrip resp)))

/-! ## Keithley6487.get_error / check_error

The SYST:ERR? query either returns a reply or raises inside the VISA layer;
we model its outcome as `Option (List Char)` with `none` for a raised
exception.  get_error swallows the exception and returns the empty string. -/

/-- Embeds Keithley6487.get_error: the stripped reply, or the empty string
when the query raised. -/
def getError (reply : Option (List Char)) : List Char :=
  match reply with
  | none => []
  | some s => pyStrip s

/-- Embeds the raise condition of Keithley6487.check_error: it raises
RuntimeError exactly when the string returned by get_error is non-empty and
does not start with the character 0. -/
def checkErrorRaises (reply : Option (List Char)) : Bool :=
  match getError reply with
  | [] => false
  | c :: _ => c ≠ '0'

/-! ## CSV schemas -/

/-- A CSV cell: either a textual or a numeric payload. -/
inductive RowVal where
  | str (s : List Char)
  | num (q : ℚ)
deriving DecidableEq

/-- The DictWriter fieldnames of Runner.run (src/new_version/runner.py,
lines 41 to 44). -/
def runnerFieldnames : List String :=
  ["timestamp", "elapsed_s", "instrument", "resource", "mode",
   "set_value", "measured_value"]

/-- The header row written by src/iv_sweep_live.py (line 97). -/
def ivSweepLiveHeader : List String :=
  ["Set Voltage (V)", "Current (A)", "Status", "Raw READ?"]

/-- The header row written by src/voltage_sweep.py (line 55). -/
def voltageSweepHeader : List String :=
  ["Set Voltage (V)", "Current (A)"]

/-- Embeds the row dictionary built by emit_and_write inside Runner.run:
keys in declaration order with their payloads. -/
def emitRow (ts : List Char) (elapsed : ℚ) (instr res mode : List Char)
    (setVal measVal : ℚ) : List (String × RowVal) :=
  [("timestamp", RowVal.str ts),
   ("elapsed_s", RowVal.num elapsed),
   ("instrument", RowVal.str instr),
   ("resource", RowVal.str res),
   ("mode", RowVal.str mode),
   ("set_value", RowVal.num setVal),
   ("measured_value", RowVal.num measVal)]

/-- Embeds the data row written by src/iv_sweep_live.py (line 109):
set voltage, current, status, raw READ? reply. -/
def ivSweepLiveRow (v curr stat : ℚ) (raw : List Char) : List RowVal :=
  [RowVal.num v, RowVal.num curr, RowVal.num stat, RowVal.str raw]

/-! ## Runner.run control loops

The worker thread body (src/new_version/runner.py, Runner.run) is modelled
as a trace of instrument and logging events.  Blocking calls that return
measurements are replaced by an oracle `meas` over iteration indices, and
the cooperative stop flag by an oracle `flag` (flag n is the value of
self._stop observed at the n-th check).  Real time in the timed hold loop
is likewise an oracle `timeOk` (whether time.time() < t_end at the n-th
check).  Loops are given fuel to stay total; the code itself can loop
forever when step is 0 or duration_s is 0 and stop is never pressed. -/

/-- One observable event of Runner.run. -/
inductive Ev where
  | sourceSet (v : ℚ)        -- 6487 SOUR:VOLT (source_voltage)
  | checkErr                 -- 6487 check_error
  | sourceMeasV (v : ℚ)      -- 2450 source_voltage_measure_current
  | sourceMeasI (i : ℚ)      -- 2450 source_current_measure_voltage
  | outputOn
  | sleep (s : ℚ)
  | row (setVal measVal : ℚ) -- emit_and_write: one CSV row and one signal
  | attemptOutputOff         -- output_off attempted
  | visaClose                -- self.inst.close() attempted
  | instNone                 -- self.inst = None
deriving DecidableEq

/-- The rows written to the CSV, in order, as pairs of set value and
measured value. -/
def rowsOf (tr : List Ev) : List (ℚ × ℚ) :=
  tr.filterMap (fun e =>
    match e with
    | Ev.row s m => some (s, m)
    | _ => none)

/-- The set values of the rows written, in order. -/
def setValuesOf (tr : List Ev) : List ℚ :=
  (rowsOf tr).map Prod.fst

/-- The sweep increment of Runner.run:
step = cfg.step if (cfg.stop >= cfg.start) else -abs(cfg.step). -/
def sweepInc (start stop step : ℚ) : ℚ :=
  if stop ≥ start then step else -|step|

/-- The tolerance 1e-12 used in the sweep loop conditions. -/
def sweepEps : ℚ := 1 / 10 ^ 12

/-- The sweep loop condition:
(v <= stop + 1e-12) if step > 0 else (v >= stop - 1e-12). -/
def sweepCond (stop inc v : ℚ) : Bool :=
  if 0 < inc then decide (v ≤ stop + sweepEps) else decide (v ≥ stop - sweepEps)

/-- The set values visited by a sweep loop: starting at v, while the loop
condition holds, emit v and add the increment.  This is the sweep table the
spec speaks of. -/
def sweepTable (stop inc : ℚ) : ℕ → ℚ → List ℚ
  | 0, _ => []
  | fuel + 1, v =>
    if sweepCond stop inc v then v :: sweepTable stop inc fuel (v + inc) else []

/-- The shared control flow of the four sweep loops of Runner.run: while the
condition holds, break if the stop flag is observed, otherwise perform the
per-point body (instrument calls, dwell, one row) and add the increment.
`body n v` lists the events of the loop body at iteration n for set value
v; the three per-branch bodies are below. -/
def sweepLoopTr (stop inc : ℚ) (body : ℕ → ℚ → List Ev) (flag : ℕ → Bool) :
    ℕ → ℕ → ℚ → List Ev
  | 0, _, _ => []
  | fuel + 1, n, v =>
    if sweepCond stop inc v then
      if flag n then []
      else body n v ++ sweepLoopTr stop inc body flag fuel (n + 1) (v + inc)
    else []

/-- Loop body of the 6487 IV_SWEEP branch: source_voltage(v), check_error,
sleep(dwell_s), emit_and_write(v, measure_current()). -/
def body6487IV (dwell : ℚ) (meas : ℕ → ℚ) (n : ℕ) (v : ℚ) : List Ev :=
  [Ev.sourceSet v, Ev.checkErr, Ev.sleep dwell, Ev.row v (meas n)]

/-- Loop body of the 2450 IV_SWEEP branch:
source_voltage_measure_current(v, ...), sleep(dwell_s),
emit_and_write(v, measure_current()). -/
def body2450IV (dwell : ℚ) (meas : ℕ → ℚ) (n : ℕ) (v : ℚ) : List Ev :=
  [Ev.sourceMeasV v, Ev.sleep dwell, Ev.row v (meas n)]

/-- Loop body of the 2450 VI_SWEEP branch:
source_current_measure_voltage(i, ...), sleep(dwell_s),
emit_and_write(i, measure_voltage()). -/
def body2450VI (dwell : ℚ) (meas : ℕ → ℚ) (n : ℕ) (i : ℚ) : List Ev :=
  [Ev.sourceMeasI i, Ev.sleep dwell, Ev.row i (meas n)]

/-- The full 6487 IV_SWEEP branch of Runner.run, from cfg.start with the
increment chosen from cfg.step and the endpoints. -/
def iv6487Run (start stop step dwell : ℚ) (meas : ℕ → ℚ) (flag : ℕ → Bool)
    (fuel : ℕ) : List Ev :=
  sweepLoopTr stop (sweepInc start stop step) (body6487IV dwell meas) flag fuel 0 start

/-- The full 2450 IV_SWEEP branch of Runner.run (after the initial
set_nplc_current, zero-bias source and output_on). -/
def iv2450Run (start stop step dwell : ℚ) (meas : ℕ → ℚ) (flag : ℕ → Bool)
    (fuel : ℕ) : List Ev :=
  sweepLoopTr stop (sweepInc start stop step) (body2450IV dwell meas) flag fuel 0 start

/-- The full 2450 VI_SWEEP branch of Runner.run (after the initial
set_nplc_voltage, zero-bias source and output_on). -/
def vi2450Run (start stop step dwell : ℚ) (meas : ℕ → ℚ) (flag : ℕ → Bool)
    (fuel : ℕ) : List Ev :=
  sweepLoopTr stop (sweepInc start stop step) (body2450VI dwell meas) flag fuel 0 start

/-- The hold logging loop: while the condition holds (not stopped, and for
the timed variant still before t_end), sleep one sample period and emit one
row with the constant set value. -/
def holdLoopTr (period setVal : ℚ) (meas : ℕ → ℚ) (cond : ℕ → Bool) :
    ℕ → ℕ → List Ev
  | 0, _ => []
  | fuel + 1, n =>
    if cond n then
      Ev.sleep period :: Ev.row setVal (meas n) :: holdLoopTr period setVal meas cond fuel (n + 1)
    else []

/-- The HOLD_V branch of Runner.run on the 6487: source_voltage(cfg.start)
and check_error once, then the logging loop; the loop runs until the stop
flag when duration_s <= 0, and until t_end or the stop flag otherwise. -/
def holdV6487Run (start period duration : ℚ) (meas : ℕ → ℚ)
    (flag timeOk : ℕ → Bool) (fuel : ℕ) : List Ev :=
  Ev.sourceSet start :: Ev.checkErr ::
    (if duration ≤ 0 then
      holdLoopTr period start meas (fun n => !flag n) fuel 0
    else
      holdLoopTr period start meas (fun n => timeOk n && !flag n) fuel 0)

/-- The HOLD_V branch of Runner.run on the 2450:
source_voltage_measure_current(cfg.start, ...) and output_on once, then the
same logging loop. -/
def holdV2450Run (start period duration : ℚ) (meas : ℕ → ℚ)
    (flag timeOk : ℕ → Bool) (fuel : ℕ) : List Ev :=
  Ev.sourceMeasV start :: Ev.outputOn ::
    (if duration ≤ 0 then
      holdLoopTr period start meas (fun n => !flag n) fuel 0
    else
      holdLoopTr period start meas (fun n => timeOk n && !flag n) fuel 0)

/-- The HOLD_I branch of Runner.run (2450 only):
source_current_measure_voltage(cfg.start, ...) and output_on once, then the
same logging loop. -/
def holdI2450Run (start period duration : ℚ) (meas : ℕ → ℚ)
    (flag timeOk : ℕ → Bool) (fuel : ℕ) : List Ev :=
  Ev.sourceMeasI start :: Ev.outputOn ::
    (if duration ≤ 0 then
      holdLoopTr period start meas (fun n => !flag n) fuel 0
    else
      holdLoopTr period start meas (fun n => timeOk n && !flag n) fuel 0)

/-! ## The READ? reply parser

Keithley6487._parse_current_from_read runs re.search with the pattern
sign? digits* dot? digits+ exponent? on the cleaned first field and returns
float(m.group(0)), raising ValueError when there is no match.  The
deterministic greedy matcher below reproduces the semantics of that fixed
pattern: re.search tries each start position from the left; at a position
the optional sign is taken when present, the integer digits greedily, the
dot only when digits follow it (otherwise backtracking leaves the final
digit run as the mandatory digits+), and the exponent group only when a
marker, an optional sign and at least one digit follow. -/

/-- Decimal digit test (the regex digit class on these ASCII replies). -/
def isDigit (c : Char) : Bool := '0' ≤ c ∧ c ≤ '9'

/-- Greedily split a maximal run of digits off the front. -/
def takeDigits (s : List Char) : List Char × List Char :=
  (s.takeWhile isDigit, s.dropWhile isDigit)

/-- Match the core digits* dot? digits+ at the start of s, returning the
matched characters and the rest.  Greedy with backtracking: the dot is kept
only when at least one digit follows it; otherwise a non-empty integer
digit run alone matches. -/
def matchCore (s : List Char) : Option (List Char × List Char) :=
  match (takeDigits s).2 with
  | c :: r2 =>
    if c = '.' then
      if (takeDigits r2).1 ≠ [] then
        some ((takeDigits s).1 ++ '.' :: (takeDigits r2).1, (takeDigits r2).2)
      else if (takeDigits s).1 ≠ [] then some ((takeDigits s).1, (takeDigits s).2)
      else none
    else if (takeDigits s).1 ≠ [] then some ((takeDigits s).1, (takeDigits s).2)
    else none
  | [] => if (takeDigits s).1 ≠ [] then some ((takeDigits s).1, (takeDigits s).2)
    else none

/-- Match the optional exponent group at the start of s: a marker e or E,
an optional sign and at least one digit; otherwise match nothing. -/
def matchExp (s : List Char) : List Char × List Char :=
  match s with
  | c :: r =>
    if c = 'e' ∨ c = 'E' then
      match r with
      | c2 :: r2 =>
        if c2 = '+' ∨ c2 = '-' then
          if (takeDigits r2).1 ≠ [] then (c :: c2 :: (takeDigits r2).1, (takeDigits r2).2)
          else ([], s)
        else
          if (takeDigits r).1 ≠ [] then (c :: (takeDigits r).1, (takeDigits r).2)
          else ([], s)
      | [] => ([], s)
    else ([], s)
  | [] => ([], s)

/-- Match the whole number pattern at the start of s. -/
def matchNum (s : List Char) : Option (List Char) :=
  match s with
  | c :: r =>
    if c = '+' ∨ c = '-' then
      (matchCore r).map (fun p => c :: p.1 ++ (matchExp p.2).1)
    else
      (matchCore s).map (fun p => p.1 ++ (matchExp p.2).1)
  | [] => none

/-- re.search for the number pattern: try every start position from the
left, returning the first (greedy) match. -/
def findNum : List Char → Option (List Char)
  | [] => none
  | c :: r =>
    match matchNum (c :: r) with
    | some t => some t
    | none => findNum r

/-- Numeric value of a digit string. -/
def digitsToNat (l : List Char) : ℕ :=
  l.foldl (fun a c => 10 * a + (c.toNat - 48)) 0

/-- The exact rational value of a matched token, modelling Python float of
the literal: optional sign, mantissa with optional dot, optional exponent. -/
def tokenVal (t : List Char) : ℚ :=
  let sp : ℚ × List Char :=
    match t with
    | '-' :: r => (-1, r)
    | '+' :: r => (1, r)
    | _ => (1, t)
  let mant := sp.2.takeWhile (fun c => c ≠ 'e' ∧ c ≠ 'E')
  let rest := sp.2.dropWhile (fun c => c ≠ 'e' ∧ c ≠ 'E')
  let ip := mant.takeWhile (fun c => c ≠ '.')
  let fp := (mant.dropWhile (fun c => c ≠ '.')).drop 1
  let m : ℚ := (digitsToNat (ip ++ fp) : ℚ) / (10 : ℚ) ^ fp.length
  let e : ℤ :=
    match rest with
    | _ :: '-' :: d => -(digitsToNat d : ℤ)
    | _ :: '+' :: d => (digitsToNat d : ℤ)
    | _ :: d => (digitsToNat d : ℤ)
    | [] => 0
  sp.1 * m * (10 : ℚ) ^ e

/-- Embeds Keithley6487._parse_current_from_read: clean the first field,
search for the number pattern, convert; none models the ValueError raise. -/
def parseCurrentFromRead (resp : List Char) : Option ℚ :=
  (findNum (cleanField resp)).map tokenVal

/-! ### Declarative number grammar

An independent reading of the regex as a grammar, used to state what
_parse_current_from_read finds without mentioning the matcher. -/

/-- Every character is a decimal digit. -/
def Digits (l : List Char) : Prop := ∀ c ∈ l, isDigit c = true

/-- The core of the pattern: digits+ or digits* dot digits+. -/
def NumCore (t : List Char) : Prop :=
  (t ≠ [] ∧ Digits t) ∨
    ∃ d1 d2, Digits d1 ∧ Digits d2 ∧ d2 ≠ [] ∧ t = d1 ++ '.' :: d2

/-- The optional exponent group: empty, or a marker, an optional sign and
at least one digit. -/
def ExpPart (e : List Char) : Prop :=
  e = [] ∨
    ∃ m sg d, (m = 'e' ∨ m = 'E') ∧ (sg = [] ∨ sg = ['+'] ∨ sg = ['-']) ∧
      Digits d ∧ d ≠ [] ∧ e = m :: (sg ++ d)

/-- A complete token of the pattern: optional sign, core, optional
exponent group. -/
def NumToken (t : List Char) : Prop :=
  ∃ sg core e, (sg = [] ∨ sg = ['+'] ∨ sg = ['-']) ∧ NumCore core ∧
    ExpPart e ∧ t = sg ++ core ++ e

/-! ## Sweep-table constructions of the standalone scripts -/

/-- Python round with no digits argument: round half to even, on the exact
rational reading of the float. -/
def pyRound (q : ℚ) : ℤ :=
  if q - ⌊q⌋ < 1 / 2 then ⌊q⌋
  else if 1 / 2 < q - ⌊q⌋ then ⌊q⌋ + 1
  else if ⌊q⌋ % 2 = 0 then ⌊q⌋ else ⌊q⌋ + 1

/-- npts of src/iv_sweep_live.py (line 92):
int(round((V_STOP - V_START) / V_STEP)) + 1, as an integer. -/
def nptsOf (a b s : ℚ) : ℤ := pyRound ((b - a) / s) + 1

/-- numpy.linspace with the default inclusive endpoint: num samples from a
to b; for num at least 2 the i-th sample is a + i * (b - a) / (num - 1). -/
def linspace (a b : ℚ) : ℕ → List ℚ
  | 0 => []
  | 1 => [a]
  | n + 2 => (List.range (n + 2)).map
      (fun i : ℕ => a + (i : ℚ) * ((b - a) / ((n : ℚ) + 1)))

/-- numpy.arange a b s: the values a + k * s for 0 <= k < ceil((b - a) / s),
empty when that count is not positive; the s = 0 case (an error in numpy)
is mapped to the empty list. -/
def arange (a b s : ℚ) : List ℚ :=
  if s = 0 then []
  else (List.range (⌈(b - a) / s⌉.toNat)).map (fun k : ℕ => a + (k : ℚ) * s)

/-- The sweep table of src/iv_sweep_live.py (lines 92 and 93):
np.linspace(V_START, V_STOP, npts). -/
def ivSweepLiveVoltages (a b s : ℚ) : List ℚ :=
  linspace a b (nptsOf a b s).toNat

/-- The sweep table of src/voltage_sweep.py (line 51):
np.arange(V_START, V_STOP + (V_STEP / 2), V_STEP). -/
def voltageSweepVoltages (a b s : ℚ) : List ℚ :=
  arange a (b + s / 2) s

/-! ## Shutdown sequence

The shutdown paths are modelled in a small trace-plus-exception semantics:
a computation is a pair of the events it performs and a Bool saying whether
an exception propagates out of it.  Each primitive instrument call is given
a fail oracle.  try/except Exception: pass keeps the trace and swallows the
exception; try/finally runs the finaliser in every case and re-raises. -/

/-- A computation outcome: events performed, and whether it raises. -/
abbrev TrOut := List Ev × Bool

/-- A primitive call: one event, raising when its fail oracle says so. -/
def attemptEv (e : Ev) (fails : Bool) : TrOut := ([e], fails)

/-- Sequencing: the second part runs only when the first does not raise. -/
def seqTr (a b : TrOut) : TrOut :=
  if a.2 then a else (a.1 ++ b.1, b.2)

/-- try ... except Exception: pass. -/
def tryPassTr (a : TrOut) : TrOut := (a.1, false)

/-- try ... finally ...: the finaliser always runs; the whole raises when
the body or the finaliser does. -/
def tryFinallyTr (body fin : TrOut) : TrOut :=
  (body.1 ++ fin.1, body.2 || fin.2)

/-- Fail oracles for the shutdown primitives: the source-to-zero write, the
output-off write inside shutdown_safe, the output-off write inside close,
and the VISA session close. -/
structure ShutFail where
  src0 : Bool
  shutOff : Bool
  closeOff : Bool
  closeVisa : Bool

/-- Embeds KeithleyBase.close: when self.inst is not None, attempt
output_off and then self.inst.close(), each under try/except; in every
case set self.inst = None.  It never raises. -/
def closeTr (instSome : Bool) (p : ShutFail) : TrOut :=
  if instSome then
    seqTr (tryPassTr (attemptEv Ev.attemptOutputOff p.closeOff))
      (seqTr (tryPassTr (attemptEv Ev.visaClose p.closeVisa))
        (attemptEv Ev.instNone false))
  else attemptEv Ev.instNone false

/-- Embeds KeithleyBase.shutdown_safe: a bare output_off call. -/
def shutdownSafeTr (p : ShutFail) : TrOut :=
  attemptEv Ev.attemptOutputOff p.shutOff

/-- Embeds the finally block of Runner.run (lines 167 to 177): for the
6487, try to return the source to 0 V and sleep, swallowing errors; then
shutdown_safe; with close guaranteed to run by the inner finally. -/
def runnerShutdownTr (is6487 instSome : Bool) (p : ShutFail) : TrOut :=
  tryFinallyTr
    (seqTr
      (if is6487 then
        tryPassTr (seqTr (attemptEv (Ev.sourceSet 0) p.src0)
          (attemptEv (Ev.sleep (3 / 10)) false))
      else ([], false))
      (shutdownSafeTr p))
    (closeTr instSome p)

/-- A whole run after a successful connect: the mode body (abstracted as
its events and raise outcome) under the try whose finally block is the
shutdown sequence. -/
def runWithShutdownTr (bodyEvents : List Ev) (bodyRaises : Bool)
    (is6487 instSome : Bool) (p : ShutFail) : TrOut :=
  tryFinallyTr (bodyEvents, bodyRaises) (runnerShutdownTr is6487 instSome p)

/-- A whole run from just after a successful connect: first the
configuration phase (reset and, for the 6487, configure_for_source; lines
50 to 68 of runner.py), which runs OUTSIDE the try whose finally block is
the shutdown sequence, then the mode dispatch under that try/finally.
When the configuration phase raises, the try block is never entered and
no shutdown runs. -/
def runnerPostConnectTr (cfgEvents : List Ev) (cfgRaises : Bool)
    (bodyEvents : List Ev) (bodyRaises : Bool) (is6487 instSome : Bool)
    (p : ShutFail) : TrOut :=
  seqTr (cfgEvents, cfgRaises)
    (runWithShutdownTr bodyEvents bodyRaises is6487 instSome p)

/-- Events that issue a source command (set the source level). -/
def isSourceCmd (e : Ev) : Bool :=
  match e with
  | Ev.sourceSet _ => true
  | Ev.sourceMeasV _ => true
  | Ev.sourceMeasI _ => true
  | _ => false

/-- The sweep loop of src/iv_sweep_live.py (lines 99 to 112): for each
voltage of the table, in order, set the source, sleep HOLD_TIME, take one
reading and write one row. -/
def scriptSweepTr (voltages : List ℚ) (dwell : ℚ) (meas : ℕ → ℚ) : List Ev :=
  (voltages.enumFrom 0).flatMap
    (fun p => [Ev.sourceSet p.2, Ev.sleep dwell, Ev.row p.2 (meas p.1)])

/-! ## Helper lemmas -/

theorem rowsOf_append (a b : List Ev) : rowsOf (a ++ b) = rowsOf a ++ rowsOf b := by
  simp [rowsOf]

theorem setValuesOf_append (a b : List Ev) :
    setValuesOf (a ++ b) = setValuesOf a ++ setValuesOf b := by
  simp [setValuesOf, rowsOf_append]

theorem setValuesOf_body6487IV (dwell : ℚ) (meas : ℕ → ℚ) (n : ℕ) (v : ℚ) :
    setValuesOf (body6487IV dwell meas n v) = [v] := by
  simp [setValuesOf, rowsOf, body6487IV]

theorem setValuesOf_body2450IV (dwell : ℚ) (meas : ℕ → ℚ) (n : ℕ) (v : ℚ) :
    setValuesOf (body2450IV dwell meas n v) = [v] := by
  simp [setValuesOf, rowsOf, body2450IV]

theorem setValuesOf_body2450VI (dwell : ℚ) (meas : ℕ → ℚ) (n : ℕ) (v : ℚ) :
    setValuesOf (body2450VI dwell meas n v) = [v] := by
  simp [setValuesOf, rowsOf, body2450VI]

theorem sweepLoopTr_setValues_head (stop inc : ℚ) (body : ℕ → ℚ → List Ev)
    (flag : ℕ → Bool) (hbody : ∀ n v, setValuesOf (body n v) = [v])
    (fuel n : ℕ) (v y : ℚ)
    (h : (setValuesOf (sweepLoopTr stop inc body flag fuel n v)).head? = some y) :
    y = v := by
  cases fuel with
  | zero => simp [sweepLoopTr, setValuesOf, rowsOf] at h
  | succ m =>
    rw [sweepLoopTr] at h
    by_cases hc : sweepCond stop inc v
    · rw [if_pos hc] at h
      by_cases hf : flag n
      · rw [if_pos hf] at h; simp [setValuesOf, rowsOf] at h
      · rw [if_neg hf, setValuesOf_append, hbody] at h
        simp at h
        exact h.symm
    · rw [if_neg hc] at h; simp [setValuesOf, rowsOf] at h

theorem sweepLoopTr_setValues_chain (stop inc : ℚ) (body : ℕ → ℚ → List Ev)
    (flag : ℕ → Bool) (R : ℚ → ℚ → Prop)
    (hbody : ∀ n v, setValuesOf (body n v) = [v])
    (hstep : ∀ w : ℚ, R w (w + inc)) :
    ∀ fuel n v, List.Chain' R (setValuesOf (sweepLoopTr stop inc body flag fuel n v)) := by
  intro fuel
  induction fuel with
  | zero => intro n v; simp [sweepLoopTr, setValuesOf, rowsOf]
  | succ m ih =>
    intro n v
    rw [sweepLoopTr]
    by_cases hc : sweepCond stop inc v
    · rw [if_pos hc]
      by_cases hf : flag n
      · rw [if_pos hf]; simp [setValuesOf, rowsOf]
      · rw [if_neg hf, setValuesOf_append, hbody]
        refine List.chain'_cons'.mpr ⟨?_, ih (n + 1) (v + inc)⟩
        intro y hy
        have hyv := sweepLoopTr_setValues_head stop inc body flag hbody m (n + 1) (v + inc) y hy
        subst hyv
        exact hstep v
    · rw [if_neg hc]; simp [setValuesOf, rowsOf]

/-- C1: with cfg.step > 0, the set values produced by every sweep loop of
Runner.run (IV_SWEEP on the 6487, IV_SWEEP on the 2450, VI_SWEEP) form a
non-decreasing sequence when stop >= start and a non-increasing sequence
when stop < start, because the applied increment is cfg.step in the first
case and -abs(cfg.step) in the second. -/
theorem c1_sweep_table_monotone (start stop step dwell : ℚ) (meas : ℕ → ℚ)
    (flag : ℕ → Bool) (fuel : ℕ) (h : 0 < step) :
    (stop ≥ start →
      List.Chain' (· ≤ ·) (setValuesOf (iv6487Run start stop step dwell meas flag fuel)) ∧
      List.Chain' (· ≤ ·) (setValuesOf (iv2450Run start stop step dwell meas flag fuel)) ∧
      List.Chain' (· ≤ ·) (setValuesOf (vi2450Run start stop step dwell meas flag fuel))) ∧
    (stop < start →
      List.Chain' (· ≥ ·) (setValuesOf (iv6487Run start stop step dwell meas flag fuel)) ∧
      List.Chain' (· ≥ ·) (setValuesOf (iv2450Run start stop step dwell meas flag fuel)) ∧
      List.Chain' (· ≥ ·) (setValuesOf (vi2450Run start stop step dwell meas flag fuel))) := by
  constructor
  · intro hge
    have hinc : sweepInc start stop step = step := if_pos hge
    have hstep : ∀ w : ℚ, w ≤ w + sweepInc start stop step := by
      intro w; rw [hinc]; linarith
    exact ⟨sweepLoopTr_setValues_chain _ _ _ _ _ (setValuesOf_body6487IV dwell meas) hstep fuel 0 start,
      sweepLoopTr_setValues_chain _ _ _ _ _ (setValuesOf_body2450IV dwell meas) hstep fuel 0 start,
      sweepLoopTr_setValues_chain _ _ _ _ _ (setValuesOf_body2450VI dwell meas) hstep fuel 0 start⟩
  · intro hlt
    have hinc : sweepInc start stop step = -|step| := if_neg (not_le.mpr hlt)
    have hstep : ∀ w : ℚ, w ≥ w + sweepInc start stop step := by
      intro w; rw [hinc]
      have := abs_nonneg step
      linarith
    exact ⟨sweepLoopTr_setValues_chain _ _ _ _ _ (setValuesOf_body6487IV dwell meas) hstep fuel 0 start,
      sweepLoopTr_setValues_chain _ _ _ _ _ (setValuesOf_body2450IV dwell meas) hstep fuel 0 start,
      sweepLoopTr_setValues_chain _ _ _ _ _ (setValuesOf_body2450VI dwell meas) hstep fuel 0 start⟩

/-- Witness for C1 at start 0, stop 3, step 1. -/
theorem c1_sweep_table_monotone_witness :
    (0 : ℚ) < 1 ∧
      List.Chain' (· ≤ ·) (setValuesOf (iv6487Run 0 3 1 (1/5) (fun _ => 0) (fun _ => false) 10)) :=
  ⟨by norm_num,
    ((c1_sweep_table_monotone 0 3 1 (1/5) (fun _ => 0) (fun _ => false) 10
      (by norm_num)).1 (by norm_num)).1⟩

theorem rowsOf_body6487IV (dwell : ℚ) (meas : ℕ → ℚ) (n : ℕ) (v : ℚ) :
    rowsOf (body6487IV dwell meas n v) = [(v, meas n)] := by
  simp [rowsOf, body6487IV]

theorem rowsOf_body2450IV (dwell : ℚ) (meas : ℕ → ℚ) (n : ℕ) (v : ℚ) :
    rowsOf (body2450IV dwell meas n v) = [(v, meas n)] := by
  simp [rowsOf, body2450IV]

theorem rowsOf_body2450VI (dwell : ℚ) (meas : ℕ → ℚ) (n : ℕ) (v : ℚ) :
    rowsOf (body2450VI dwell meas n v) = [(v, meas n)] := by
  simp [rowsOf, body2450VI]

theorem sweepLoopTr_stop_bound (stop inc : ℚ) (body : ℕ → ℚ → List Ev)
    (flag : ℕ → Bool) (k : ℕ)
    (hbody : ∀ n v, (rowsOf (body n v)).length = 1)
    (hk : flag k = true) :
    ∀ fuel n v, n ≤ k →
      (rowsOf (sweepLoopTr stop inc body flag fuel n v)).length ≤ k - n := by
  intro fuel
  induction fuel with
  | zero => intro n v _; simp [sweepLoopTr, rowsOf]
  | succ m ih =>
    intro n v hn
    rw [sweepLoopTr]
    by_cases hc : sweepCond stop inc v
    · rw [if_pos hc]
      by_cases hf : flag n
      · rw [if_pos hf]; simp [rowsOf]
      · rw [if_neg hf]
        have hnk : n ≠ k := by
          intro hEq; rw [hEq] at hf; exact hf hk
        have hlt : n < k := lt_of_le_of_ne hn hnk
        have hrec := ih (n + 1) (v + inc) hlt
        rw [rowsOf_append, List.length_append, hbody]
        omega
    · rw [if_neg hc]; simp [rowsOf]

theorem holdLoopTr_stop_bound (period sv : ℚ) (meas : ℕ → ℚ) (cond : ℕ → Bool)
    (k : ℕ) (hk : cond k = false) :
    ∀ fuel n, n ≤ k →
      (rowsOf (holdLoopTr period sv meas cond fuel n)).length ≤ k - n := by
  intro fuel
  induction fuel with
  | zero => intro n _; simp [holdLoopTr, rowsOf]
  | succ m ih =>
    intro n hn
    rw [holdLoopTr]
    by_cases hc : cond n
    · rw [if_pos hc]
      have hnk : n ≠ k := by
        intro hEq; rw [hEq] at hc; rw [hk] at hc; exact Bool.noConfusion hc
      have hlt : n < k := lt_of_le_of_ne hn hnk
      have hrec := ih (n + 1) hlt
      simp only [rowsOf, List.filterMap_cons] at hrec ⊢
      simp only [List.length_cons]
      omega
    · rw [if_neg hc]; simp [rowsOf]

/-- C2: cancellation is cooperative: once the stop flag is observed (true
at check index k), no loop of Runner.run emits or writes more than k
points, in every mode. -/
theorem c2_stop_flag_bounds_rows (start stop step dwell period duration : ℚ)
    (meas : ℕ → ℚ) (flag timeOk : ℕ → Bool) (fuel k : ℕ) (hk : flag k = true) :
    (rowsOf (iv6487Run start stop step dwell meas flag fuel)).length ≤ k ∧
    (rowsOf (iv2450Run start stop step dwell meas flag fuel)).length ≤ k ∧
    (rowsOf (vi2450Run start stop step dwell meas flag fuel)).length ≤ k ∧
    (rowsOf (holdV6487Run start period duration meas flag timeOk fuel)).length ≤ k ∧
    (rowsOf (holdV2450Run start period duration meas flag timeOk fuel)).length ≤ k ∧
    (rowsOf (holdI2450Run start period duration meas flag timeOk fuel)).length ≤ k := by
  have hnotflag : (fun n => !flag n) k = false := by simp [hk]
  have htimed : (fun n => timeOk n && !flag n) k = false := by simp [hk]
  have hhold : ∀ sv : ℚ, ∀ cond : ℕ → Bool, cond k = false →
      (rowsOf (holdLoopTr period sv meas cond fuel 0)).length ≤ k := by
    intro sv cond hcond
    have := holdLoopTr_stop_bound period sv meas cond k hcond fuel 0 (Nat.zero_le k)
    omega
  refine ⟨?_, ?_, ?_, ?_, ?_, ?_⟩
  · have := sweepLoopTr_stop_bound stop (sweepInc start stop step) (body6487IV dwell meas) flag k
      (fun n v => by rw [rowsOf_body6487IV]; rfl) hk fuel 0 start (Nat.zero_le k)
    simpa [iv6487Run] using this
  · have := sweepLoopTr_stop_bound stop (sweepInc start stop step) (body2450IV dwell meas) flag k
      (fun n v => by rw [rowsOf_body2450IV]; rfl) hk fuel 0 start (Nat.zero_le k)
    simpa [iv2450Run] using this
  · have := sweepLoopTr_stop_bound stop (sweepInc start stop step) (body2450VI dwell meas) flag k
      (fun n v => by rw [rowsOf_body2450VI]; rfl) hk fuel 0 start (Nat.zero_le k)
    simpa [vi2450Run] using this
  · rw [holdV6487Run]
    by_cases hd : duration ≤ 0
    · rw [if_pos hd]
      simpa [rowsOf] using hhold start _ hnotflag
    · rw [if_neg hd]
      simpa [rowsOf] using hhold start _ htimed
  · rw [holdV2450Run]
    by_cases hd : duration ≤ 0
    · rw [if_pos hd]
      simpa [rowsOf] using hhold start _ hnotflag
    · rw [if_neg hd]
      simpa [rowsOf] using hhold start _ htimed
  · rw [holdI2450Run]
    by_cases hd : duration ≤ 0
    · rw [if_pos hd]
      simpa [rowsOf] using hhold start _ hnotflag
    · rw [if_neg hd]
      simpa [rowsOf] using hhold start _ htimed

/-- Witness for C2: a flag first observed true at check 2 bounds the rows
of a concrete 6487 sweep by 2. -/
theorem c2_stop_flag_bounds_rows_witness :
    (fun n => decide (2 ≤ n)) 2 = true ∧
      (rowsOf (iv6487Run 0 5 1 (1/5) (fun _ => 0) (fun n => decide (2 ≤ n)) 20)).length ≤ 2 :=
  ⟨by decide,
    (c2_stop_flag_bounds_rows 0 5 1 (1/5) (1/5) 0 (fun _ => 0)
      (fun n => decide (2 ≤ n)) (fun _ => true) 20 2 (by decide)).1⟩

theorem sweepLoopTr_eq_flatMap (stop inc : ℚ) (body : ℕ → ℚ → List Ev)
    (flag : ℕ → Bool) (hflag : ∀ n, flag n = false) :
    ∀ fuel n v, sweepLoopTr stop inc body flag fuel n v
      = ((sweepTable stop inc fuel v).enumFrom n).flatMap (fun p => body p.1 p.2) := by
  intro fuel
  induction fuel with
  | zero => intro n v; simp [sweepLoopTr, sweepTable]
  | succ m ih =>
    intro n v
    rw [sweepLoopTr, sweepTable]
    by_cases hc : sweepCond stop inc v
    · rw [if_pos hc, if_pos hc, hflag n, List.enumFrom_cons]
      simp only [if_neg Bool.false_ne_true, List.flatMap_cons]
      rw [ih (n + 1) (v + inc)]
    · rw [if_neg hc, if_neg hc]
      simp

theorem rowsOf_flatMap {α : Type} (l : List α) (f : α → List Ev) :
    rowsOf (l.flatMap f) = l.flatMap (fun p => rowsOf (f p)) := by
  induction l with
  | nil => simp [rowsOf]
  | cons a t ih => simp only [List.flatMap_cons, rowsOf_append, ih]

theorem flatMap_single {α β : Type} (l : List α) (f : α → β) :
    (l.flatMap fun x => [f x]) = l.map f := by
  induction l with
  | nil => rfl
  | cons a t ih => simp [List.flatMap_cons, ih]

/-- C7: in a sweep run that is never stopped, the loop trace is exactly,
for each value of the sweep table in order: apply the value, dwell, one
measurement with its one CSV row pairing that set value with the measured
value; the rows are the table values in sweep order.  Stated for the three
Runner.run sweep branches and the iv_sweep_live.py loop. -/
theorem c7_sweep_semantics (start stop step dwell : ℚ) (meas : ℕ → ℚ)
    (flag : ℕ → Bool) (fuel : ℕ) (voltages : List ℚ)
    (hflag : ∀ n, flag n = false) :
    (iv6487Run start stop step dwell meas flag fuel
      = ((sweepTable stop (sweepInc start stop step) fuel start).enumFrom 0).flatMap
          (fun p => body6487IV dwell meas p.1 p.2)) ∧
    (rowsOf (iv6487Run start stop step dwell meas flag fuel)
      = ((sweepTable stop (sweepInc start stop step) fuel start).enumFrom 0).map
          (fun p => (p.2, meas p.1))) ∧
    (iv2450Run start stop step dwell meas flag fuel
      = ((sweepTable stop (sweepInc start stop step) fuel start).enumFrom 0).flatMap
          (fun p => body2450IV dwell meas p.1 p.2)) ∧
    (rowsOf (iv2450Run start stop step dwell meas flag fuel)
      = ((sweepTable stop (sweepInc start stop step) fuel start).enumFrom 0).map
          (fun p => (p.2, meas p.1))) ∧
    (vi2450Run start stop step dwell meas flag fuel
      = ((sweepTable stop (sweepInc start stop step) fuel start).enumFrom 0).flatMap
          (fun p => body2450VI dwell meas p.1 p.2)) ∧
    (rowsOf (vi2450Run start stop step dwell meas flag fuel)
      = ((sweepTable stop (sweepInc start stop step) fuel start).enumFrom 0).map
          (fun p => (p.2, meas p.1))) ∧
    (rowsOf (scriptSweepTr voltages dwell meas)
      = (voltages.enumFrom 0).map (fun p => (p.2, meas p.1))) := by
  have h1 := sweepLoopTr_eq_flatMap stop (sweepInc start stop step)
    (body6487IV dwell meas) flag hflag fuel 0 start
  have h2 := sweepLoopTr_eq_flatMap stop (sweepInc start stop step)
    (body2450IV dwell meas) flag hflag fuel 0 start
  have h3 := sweepLoopTr_eq_flatMap stop (sweepInc start stop step)
    (body2450VI dwell meas) flag hflag fuel 0 start
  refine ⟨h1, ?_, h2, ?_, h3, ?_, ?_⟩
  · rw [iv6487Run, h1, rowsOf_flatMap]
    simp only [rowsOf_body6487IV]
    exact flatMap_single _ _
  · rw [iv2450Run, h2, rowsOf_flatMap]
    simp only [rowsOf_body2450IV]
    exact flatMap_single _ _
  · rw [vi2450Run, h3, rowsOf_flatMap]
    simp only [rowsOf_body2450VI]
    exact flatMap_single _ _
  · rw [scriptSweepTr, rowsOf_flatMap]
    simp only [rowsOf, List.filterMap_cons, List.filterMap_nil]
    exact flatMap_single _ _

/-- Witness for C7 on a concrete never-stopped sweep. -/
theorem c7_sweep_semantics_witness :
    (∀ n : ℕ, (fun _ : ℕ => false) n = false) ∧
      rowsOf (iv6487Run 0 2 1 (1/5) (fun n => n) (fun _ => false) 10)
        = ((sweepTable 2 (sweepInc 0 2 1) 10 0).enumFrom 0).map
            (fun p => (p.2, (p.1 : ℚ))) :=
  ⟨fun _ => rfl,
    (c7_sweep_semantics 0 2 1 (1/5) (fun n => n) (fun _ => false) 10 []
      (fun _ => rfl)).2.1⟩

theorem holdLoopTr_eq_flatMap (period sv : ℚ) (meas : ℕ → ℚ) (cond : ℕ → Bool) :
    ∀ k fuel n, (∀ j, j < k → cond (n + j) = true) → cond (n + k) = false →
      k ≤ fuel →
      holdLoopTr period sv meas cond fuel n
        = (List.range k).flatMap
            (fun j => [Ev.sleep period, Ev.row sv (meas (n + j))]) := by
  intro k
  induction k with
  | zero =>
    intro fuel n _ hstop _
    have hn : cond n = false := by simpa using hstop
    cases fuel with
    | zero => simp [holdLoopTr]
    | succ m => rw [holdLoopTr, if_neg (by simp [hn])]; simp
  | succ j ihk =>
    intro fuel n hrun hstop hfuel
    cases fuel with
    | zero => omega
    | succ m =>
      have hc : cond n = true := by simpa using hrun 0 (Nat.succ_pos j)
      rw [holdLoopTr, if_pos hc]
      have hrec := ihk m (n + 1)
        (fun i hi => by
          have := hrun (i + 1) (by omega)
          simpa [Nat.add_assoc, Nat.add_comm 1 i] using this)
        (by
          have : n + 1 + j = n + (j + 1) := by omega
          rw [this]; exact hstop)
        (by omega)
      rw [hrec, List.range_succ_eq_map, List.flatMap_cons, List.flatMap_map]
      have harg : ∀ i : ℕ, n + 1 + i = n + (i + 1) := by omega
      simp only [Nat.add_zero, harg]
      rfl

theorem holdLoopTr_rows_setVal (period sv : ℚ) (meas : ℕ → ℚ) (cond : ℕ → Bool) :
    ∀ fuel n r, r ∈ rowsOf (holdLoopTr period sv meas cond fuel n) → r.1 = sv := by
  intro fuel
  induction fuel with
  | zero => intro n r hr; simp [holdLoopTr, rowsOf] at hr
  | succ m ih =>
    intro n r hr
    rw [holdLoopTr] at hr
    by_cases hc : cond n
    · rw [if_pos hc] at hr
      simp only [rowsOf, List.filterMap_cons] at hr
      rcases List.mem_cons.mp hr with h | h
      · rw [h]
      · exact ih (n + 1) r h
    · rw [if_neg hc] at hr; simp [rowsOf] at hr

theorem holdLoopTr_no_source (period sv : ℚ) (meas : ℕ → ℚ) (cond : ℕ → Bool) :
    ∀ fuel n, (holdLoopTr period sv meas cond fuel n).countP isSourceCmd = 0 := by
  intro fuel
  induction fuel with
  | zero => intro n; simp [holdLoopTr]
  | succ m ih =>
    intro n
    rw [holdLoopTr]
    by_cases hc : cond n
    · rw [if_pos hc]
      simp [List.countP_cons, isSourceCmd, ih (n + 1)]
    · rw [if_neg hc]; simp

/-- C8: in HOLD_V (6487 and 2450) and HOLD_I runs, the source command is
issued exactly once, with cfg.start, before the logging loop; every row
emitted has set value cfg.start; and when duration_s <= 0 the loop logs
one measurement per sample period until the stop flag is first observed
(at check k), producing exactly k rows. -/
theorem c8_hold_semantics (start period duration : ℚ) (meas : ℕ → ℚ)
    (flag timeOk : ℕ → Bool) (fuel k : ℕ)
    (hd : duration ≤ 0) (hk : flag k = true)
    (hmin : ∀ j, j < k → flag j = false) (hfuel : k ≤ fuel) :
    (∀ d : ℚ, ∀ r ∈ rowsOf (holdV6487Run start period d meas flag timeOk fuel), r.1 = start) ∧
    (∀ d : ℚ, ∀ r ∈ rowsOf (holdV2450Run start period d meas flag timeOk fuel), r.1 = start) ∧
    (∀ d : ℚ, ∀ r ∈ rowsOf (holdI2450Run start period d meas flag timeOk fuel), r.1 = start) ∧
    (∀ d : ℚ, (holdV6487Run start period d meas flag timeOk fuel).countP isSourceCmd = 1 ∧
      (holdV6487Run start period d meas flag timeOk fuel).head? = some (Ev.sourceSet start)) ∧
    (∀ d : ℚ, (holdV2450Run start period d meas flag timeOk fuel).countP isSourceCmd = 1 ∧
      (holdV2450Run start period d meas flag timeOk fuel).head? = some (Ev.sourceMeasV start)) ∧
    (∀ d : ℚ, (holdI2450Run start period d meas flag timeOk fuel).countP isSourceCmd = 1 ∧
      (holdI2450Run start period d meas flag timeOk fuel).head? = some (Ev.sourceMeasI start)) ∧
    (holdV6487Run start period duration meas flag timeOk fuel
      = Ev.sourceSet start :: Ev.checkErr ::
          (List.range k).flatMap (fun j => [Ev.sleep period, Ev.row start (meas j)])) ∧
    (rowsOf (holdV6487Run start period duration meas flag timeOk fuel)).length = k := by
  have hloop : ∀ d : ℚ, ∀ r ∈ rowsOf
      (if d ≤ 0 then holdLoopTr period start meas (fun n => !flag n) fuel 0
       else holdLoopTr period start meas (fun n => timeOk n && !flag n) fuel 0),
      r.1 = start := by
    intro d r hr
    by_cases hdd : d ≤ 0
    · rw [if_pos hdd] at hr
      exact holdLoopTr_rows_setVal period start meas _ fuel 0 r hr
    · rw [if_neg hdd] at hr
      exact holdLoopTr_rows_setVal period start meas _ fuel 0 r hr
  have hcount : ∀ d : ℚ, (List.countP isSourceCmd
      (if d ≤ 0 then holdLoopTr period start meas (fun n => !flag n) fuel 0
       else holdLoopTr period start meas (fun n => timeOk n && !flag n) fuel 0)) = 0 := by
    intro d
    by_cases hdd : d ≤ 0
    · rw [if_pos hdd]; exact holdLoopTr_no_source period start meas _ fuel 0
    · rw [if_neg hdd]; exact holdLoopTr_no_source period start meas _ fuel 0
  have hflat : holdLoopTr period start meas (fun n => !flag n) fuel 0
      = (List.range k).flatMap (fun j => [Ev.sleep period, Ev.row start (meas j)]) := by
    have := holdLoopTr_eq_flatMap period start meas (fun n => !flag n) k fuel 0
      (fun j hj => by simp [hmin j hj])
      (by simp [hk])
      hfuel
    simpa using this
  refine ⟨?_, ?_, ?_, ?_, ?_, ?_, ?_, ?_⟩
  · intro d r hr
    rw [holdV6487Run] at hr
    simp only [rowsOf, List.filterMap_cons] at hr
    exact hloop d r hr
  · intro d r hr
    rw [holdV2450Run] at hr
    simp only [rowsOf, List.filterMap_cons] at hr
    exact hloop d r hr
  · intro d r hr
    rw [holdI2450Run] at hr
    simp only [rowsOf, List.filterMap_cons] at hr
    exact hloop d r hr
  · intro d
    rw [holdV6487Run]
    exact ⟨by simp [List.countP_cons, isSourceCmd, hcount d], rfl⟩
  · intro d
    rw [holdV2450Run]
    exact ⟨by simp [List.countP_cons, isSourceCmd, hcount d], rfl⟩
  · intro d
    rw [holdI2450Run]
    exact ⟨by simp [List.countP_cons, isSourceCmd, hcount d], rfl⟩
  · rw [holdV6487Run, if_pos hd, hflat]
  · have hmap : rowsOf ((List.range k).flatMap
        (fun j => [Ev.sleep period, Ev.row start (meas j)])) =
        (List.range k).map (fun j => (start, meas j)) := by
      rw [rowsOf_flatMap]
      have heach : (fun j : ℕ => rowsOf [Ev.sleep period, Ev.row start (meas j)])
          = fun j : ℕ => [(start, meas j)] := by
        funext j; simp [rowsOf]
      rw [heach]
      exact flatMap_single _ _
    rw [holdV6487Run, if_pos hd, hflat]
    have hpre : rowsOf (Ev.sourceSet start :: Ev.checkErr ::
        (List.range k).flatMap (fun j => [Ev.sleep period, Ev.row start (meas j)]))
        = rowsOf ((List.range k).flatMap (fun j => [Ev.sleep period, Ev.row start (meas j)])) := by
      simp [rowsOf]
    rw [hpre, hmap]
    simp

/-- Witness for C8 on a concrete indefinite hold stopped at check 2. -/
theorem c8_hold_semantics_witness :
    ((0 : ℚ) ≤ 0 ∧ (fun n => decide (2 ≤ n)) 2 = true ∧
      (∀ j, j < 2 → (fun n => decide (2 ≤ n)) j = false) ∧ 2 ≤ 5) ∧
      (rowsOf (holdV6487Run 1 (1/5) 0 (fun _ => 0)
        (fun n => decide (2 ≤ n)) (fun _ => true) 5)).length = 2 :=
  ⟨⟨le_refl 0, by decide, by decide, by decide⟩,
    (c8_hold_semantics 1 (1/5) 0 (fun _ => 0) (fun n => decide (2 ≤ n))
      (fun _ => true) 5 2 (le_refl 0) (by decide) (by decide)
      (by decide)).2.2.2.2.2.2.2⟩

/-- Counterexample to C3 as stated: with every shutdown primitive healthy
except the output-off write performed by shutdown_safe, an exception does
propagate out of the shutdown block of Runner.run (shutdown_safe is not
wrapped in try/except there). -/
theorem c3_counterexample :
    (runnerShutdownTr true true ⟨false, true, false, false⟩).2 = true := rfl

/-- C3 amended: exceptions from the return-to-0V write are swallowed and
KeithleyBase.close never lets an exception escape, but an exception raised
by the bare shutdown_safe output-off call propagates out of the shutdown
block (close still runs first): the shutdown sequence raises exactly when
that call raises. -/
theorem c3_amended_shutdown_swallow (is6487 instSome : Bool) (p : ShutFail) :
    (closeTr instSome p).2 = false ∧
      (runnerShutdownTr is6487 instSome p).2 = p.shutOff := by
  obtain ⟨a, b, c, d⟩ := p
  cases is6487 <;> cases instSome <;> cases a <;> cases b <;> cases c <;> cases d <;>
    exact ⟨rfl, rfl⟩

/-- Witness for C3 amended at a concrete failure profile. -/
theorem c3_amended_shutdown_swallow_witness :
    (closeTr true ⟨true, false, true, true⟩).2 = false ∧
      (runnerShutdownTr true true ⟨true, false, true, true⟩).2 =
        (ShutFail.mk true false true true).shutOff :=
  c3_amended_shutdown_swallow true true ⟨true, false, true, true⟩

theorem runWithShutdown_trace (bodyEvents : List Ev) (bodyRaises : Bool)
    (p : ShutFail) :
    (runWithShutdownTr bodyEvents bodyRaises true true p).1
      = bodyEvents ++
          (if p.src0 then [Ev.sourceSet 0] else [Ev.sourceSet 0, Ev.sleep (3 / 10)]) ++
          [Ev.attemptOutputOff, Ev.attemptOutputOff, Ev.visaClose, Ev.instNone] := by
  obtain ⟨a, b, c, d⟩ := p
  cases bodyRaises <;> cases a <;> cases b <;> cases c <;> cases d <;> simp [runWithShutdownTr,
    tryFinallyTr, runnerShutdownTr, seqTr, tryPassTr, attemptEv, shutdownSafeTr, closeTr]

/-- C10: check_error raises exactly when the stripped SYST:ERR? reply is
non-empty and does not start with the character 0; a raised query makes
get_error return the empty string, so check_error never raises then. -/
theorem c10_check_error_iff (reply : Option (List Char)) :
    (checkErrorRaises reply = true ↔
      ∃ s, reply = some s ∧ pyStrip s ≠ [] ∧ (pyStrip s).head? ≠ some '0') ∧
    checkErrorRaises none = false := by
  refine ⟨?_, rfl⟩
  cases reply with
  | none => simp [checkErrorRaises, getError]
  | some s =>
    constructor
    · intro hr
      simp only [checkErrorRaises, getError] at hr
      cases h : pyStrip s with
      | nil => rw [h] at hr; simp at hr
      | cons c cs =>
        rw [h] at hr
        simp at hr
        exact ⟨s, rfl, by simp [h], by simp [h, hr]⟩
    · rintro ⟨s', hs, hne, hhead⟩
      obtain rfl : s = s' := by injection hs
      simp only [checkErrorRaises, getError]
      cases h : pyStrip s with
      | nil => exact absurd h hne
      | cons c cs =>
        rw [h] at hhead
        simp at hhead ⊢
        exact hhead

/-- Witness for C10 at the concrete raising reply. -/
theorem c10_check_error_iff_witness :
    checkErrorRaises (some ['-', '1', '1', '3']) = true ↔
      ∃ s, some ['-', '1', '1', '3'] = some s ∧ pyStrip s ≠ [] ∧
        (pyStrip s).head? ≠ some '0' :=
  (c10_check_error_iff (some ['-', '1', '1', '3'])).1

/-- Counterexample to C4 as stated: no single CSV schema in the repository
carries all five claimed fields.  The runner CSV (the one with timestamp
and elapsed time) has no raw-reply column, and the live-sweep script CSV
(the one with the raw READ? reply) has neither a timestamp nor an elapsed
time column. -/
theorem c4_counterexample :
    "Raw READ?" ∉ runnerFieldnames ∧ "timestamp" ∉ ivSweepLiveHeader ∧
      "elapsed_s" ∉ ivSweepLiveHeader := by
  refine ⟨?_, ?_, ?_⟩ <;> decide

/-- C4 amended: each run is persisted as a row-oriented CSV; the runner
rows carry exactly timestamp, elapsed_s, instrument, resource, mode,
set_value and measured_value (no raw reply field), while the live-sweep
script rows carry set voltage, current, status and the raw READ? reply in
its last column. -/
theorem c4_amended_csv_schema (ts : List Char) (elapsed : ℚ)
    (instr res mode : List Char) (sv mv v curr stat : ℚ) (raw : List Char) :
    (emitRow ts elapsed instr res mode sv mv).map Prod.fst = runnerFieldnames ∧
    (emitRow ts elapsed instr res mode sv mv).lookup "timestamp" = some (RowVal.str ts) ∧
    (emitRow ts elapsed instr res mode sv mv).lookup "elapsed_s" = some (RowVal.num elapsed) ∧
    (emitRow ts elapsed instr res mode sv mv).lookup "set_value" = some (RowVal.num sv) ∧
    (emitRow ts elapsed instr res mode sv mv).lookup "measured_value" = some (RowVal.num mv) ∧
    (emitRow ts elapsed instr res mode sv mv).lookup "Raw READ?" = none ∧
    (ivSweepLiveRow v curr stat raw).length = ivSweepLiveHeader.length ∧
    ivSweepLiveHeader.getLast? = some "Raw READ?" ∧
    (ivSweepLiveRow v curr stat raw).getLast? = some (RowVal.str raw) := by
  refine ⟨rfl, ?_, ?_, ?_, ?_, ?_, rfl, rfl, rfl⟩ <;>
    simp [emitRow, List.lookup]

theorem pyRound_natCast (m : ℕ) : pyRound (m : ℚ) = m := by
  rw [pyRound, Int.floor_natCast]
  norm_num

/-- C6: when (stop - start) / step is a positive integer n, both script
constructions (the linspace one of iv_sweep_live.py and the half-step
arange one of voltage_sweep.py) produce exactly n + 1 equally spaced
values start + k * step, beginning at start and ending at stop. -/
theorem c6_sweep_endpoints (start stop step : ℚ) (n : ℕ) (hn : 0 < n)
    (h : (stop - start) / step = n) :
    (ivSweepLiveVoltages start stop step).length = n + 1 ∧
    (voltageSweepVoltages start stop step).length = n + 1 ∧
    (∀ k, k ≤ n →
      (ivSweepLiveVoltages start stop step)[k]? = some (start + k * step)) ∧
    (∀ k, k ≤ n →
      (voltageSweepVoltages start stop step)[k]? = some (start + k * step)) ∧
    (ivSweepLiveVoltages start stop step).head? = some start ∧
    (ivSweepLiveVoltages start stop step).getLast? = some stop ∧
    (voltageSweepVoltages start stop step).head? = some start ∧
    (voltageSweepVoltages start stop step).getLast? = some stop := by
  have hs : step ≠ 0 := by
    intro h0
    rw [h0, div_zero] at h
    have : (n : ℚ) = 0 := h.symm
    have : n = 0 := by exact_mod_cast this
    omega
  have hdiff : stop - start = (n : ℚ) * step := by
    rw [div_eq_iff hs] at h
    exact h
  obtain ⟨m, rfl⟩ : ∃ m, n = m + 1 := ⟨n - 1, by omega⟩
  -- the linspace table
  have hnpts : nptsOf start stop step = (m : ℤ) + 2 := by
    rw [nptsOf, h, pyRound_natCast]
    push_cast
    ring
  have hlin : ivSweepLiveVoltages start stop step
      = (List.range (m + 2)).map
          (fun i : ℕ => start + (i : ℚ) * ((stop - start) / ((m : ℚ) + 1))) := by
    rw [ivSweepLiveVoltages, hnpts]
    have h2 : ((m : ℤ) + 2).toNat = m + 2 := by omega
    rw [h2, linspace]
  have hstepq : (stop - start) / ((m : ℚ) + 1) = step := by
    rw [hdiff]
    have hm1 : ((m : ℚ) + 1) ≠ 0 := by positivity
    push_cast
    exact mul_div_cancel_left₀ step hm1
  have hlin2 : ivSweepLiveVoltages start stop step
      = (List.range (m + 2)).map (fun i : ℕ => start + (i : ℚ) * step) := by
    rw [hlin, hstepq]
  -- the arange table
  have hceil : ⌈(stop + step / 2 - start) / step⌉ = (m : ℤ) + 2 := by
    have hval : (stop + step / 2 - start) / step = (m : ℚ) + 1 + 1 / 2 := by
      rw [div_eq_iff hs]
      push_cast at hdiff ⊢
      linarith
    rw [hval]
    have : (m : ℚ) + 1 + 1 / 2 = 1 / 2 + ((m : ℤ) + 1 : ℤ) := by push_cast; ring
    rw [this, Int.ceil_add_int]
    have hhalf : ⌈(1 : ℚ) / 2⌉ = 1 := by
      rw [Int.ceil_eq_iff]
      norm_num
    omega
  have har : voltageSweepVoltages start stop step
      = (List.range (m + 2)).map (fun k : ℕ => start + (k : ℚ) * step) := by
    rw [voltageSweepVoltages, arange, if_neg hs, hceil]
    have h2 : ((m : ℤ) + 2).toNat = m + 2 := by omega
    rw [h2]
  have hget : ∀ (k : ℕ), k ≤ m + 1 →
      ((List.range (m + 2)).map (fun i : ℕ => start + i * step))[k]?
        = some (start + k * step) := by
    intro k hk
    rw [List.getElem?_map, List.getElem?_range (by omega : k < m + 2)]
    rfl
  have hlast : start + ((m : ℚ) + 1) * step = stop := by
    push_cast at hdiff
    linarith
  have hlen : ((List.range (m + 2)).map (fun i : ℕ => start + i * step)).length
      = m + 2 := by simp
  refine ⟨?_, ?_, ?_, ?_, ?_, ?_, ?_, ?_⟩
  · rw [hlin2]; simp
  · rw [har]; simp
  · intro k hk; rw [hlin2]; exact hget k hk
  · intro k hk; rw [har]; exact hget k hk
  · rw [hlin2, List.head?_eq_getElem?]
    have := hget 0 (by omega)
    rw [this]
    norm_num
  · rw [hlin2, List.getLast?_eq_getElem?, hlen]
    have h1 : m + 2 - 1 = m + 1 := by omega
    rw [h1]
    have := hget (m + 1) (le_refl _)
    rw [this]
    congr 1
    push_cast
    linarith [hlast]
  · rw [har, List.head?_eq_getElem?]
    have := hget 0 (by omega)
    rw [this]
    norm_num
  · rw [har, List.getLast?_eq_getElem?, hlen]
    have h1 : m + 2 - 1 = m + 1 := by omega
    rw [h1]
    have := hget (m + 1) (le_refl _)
    rw [this]
    congr 1
    push_cast
    linarith [hlast]

/-- Witness for C6: start 0, stop 2, step 1, n = 2. -/
theorem c6_sweep_endpoints_witness :
    (0 < 2 ∧ ((2 : ℚ) - 0) / 1 = (2 : ℕ)) ∧
      (ivSweepLiveVoltages 0 2 1).getLast? = some 2 :=
  ⟨⟨by norm_num, by norm_num⟩,
    (c6_sweep_endpoints 0 2 1 2 (by norm_num) (by norm_num)).2.2.2.2.2.1⟩

theorem digits_takeWhile (s : List Char) : Digits (s.takeWhile isDigit) := by
  intro c hc
  exact List.mem_takeWhile_imp hc

theorem takeDigits_append (s : List Char) :
    (takeDigits s).1 ++ (takeDigits s).2 = s := by
  simp [takeDigits]

theorem takeWhile_digits_prefix (d z : List Char) (hd : Digits d) :
    (d ++ z).takeWhile isDigit = d ++ z.takeWhile isDigit := by
  induction d with
  | nil => simp
  | cons c t ih =>
    have hc : isDigit c = true := hd c (List.mem_cons_self c t)
    have ht : Digits t := fun x hx => hd x (List.mem_cons_of_mem c hx)
    simp [List.takeWhile_cons, hc, ih ht]

theorem numCore_ne_nil (t : List Char) (h : NumCore t) : t ≠ [] := by
  rcases h with ⟨hne, _⟩ | ⟨d1, d2, _, _, hd2, ht⟩
  · exact hne
  · rw [ht]
    intro hcontra
    cases d1 <;> simp at hcontra

theorem numToken_ne_nil (t : List Char) (h : NumToken t) : t ≠ [] := by
  obtain ⟨sg, core, e, hsg, hcore, _, ht⟩ := h
  rw [ht]
  intro hcontra
  rcases List.append_eq_nil.mp hcontra with ⟨h1, h2⟩
  rcases List.append_eq_nil.mp h1 with ⟨_, hc⟩
  exact numCore_ne_nil core hcore hc

theorem matchCore_isSome_left (s : List Char) (h : (takeDigits s).1 ≠ []) :
    (matchCore s).isSome := by
  unfold matchCore
  repeat' split
  all_goals simp_all

theorem matchCore_isSome_dot (u : List Char) (h : (takeDigits u).1 ≠ []) :
    (matchCore ('.' :: u)).isSome := by
  have hdot : isDigit '.' = false := by decide
  have h1 : (takeDigits ('.' :: u)).1 = [] := by
    simp [takeDigits, List.takeWhile_cons, hdot]
  have h2 : (takeDigits ('.' :: u)).2 = '.' :: u := by
    simp [takeDigits, List.dropWhile_cons, hdot]
  unfold matchCore
  rw [h2]
  simp [h]

theorem matchCore_isSome_of_core (core z : List Char) (h : NumCore core) :
    (matchCore (core ++ z)).isSome := by
  rcases h with ⟨hne, hd⟩ | ⟨d1, d2, hd1, hd2, hd2ne, ht⟩
  · apply matchCore_isSome_left
    rw [takeDigits, takeWhile_digits_prefix core z hd]
    simp [hne]
  · subst ht
    cases d1 with
    | nil =>
      simp only [List.nil_append, List.cons_append]
      apply matchCore_isSome_dot
      rw [takeDigits, takeWhile_digits_prefix d2 z hd2]
      simp [hd2ne]
    | cons a d1t =>
      apply matchCore_isSome_left
      have hstep : ((a :: d1t) ++ '.' :: d2 ++ z).takeWhile isDigit
          = (a :: d1t) ++ ('.' :: d2 ++ z).takeWhile isDigit := by
        have := takeWhile_digits_prefix (a :: d1t) ('.' :: d2 ++ z) hd1
        simpa using this
      rw [takeDigits]
      simp only [List.cons_append, List.append_assoc] at hstep ⊢
      rw [hstep]
      simp

theorem numCore_head_not_sign (core : List Char) (h : NumCore core)
    (c : Char) (r : List Char) (hc : core = c :: r) :
    ¬(c = '+' ∨ c = '-') := by
  intro hsign
  rcases h with ⟨_, hd⟩ | ⟨d1, d2, hd1, _, _, ht⟩
  · have : isDigit c = true := hd c (by rw [hc]; exact List.mem_cons_self c r)
    rcases hsign with h1 | h1 <;> rw [h1] at this <;> exact absurd this (by decide)
  · rw [ht] at hc
    cases d1 with
    | nil =>
      simp at hc
      rcases hsign with h1 | h1 <;> rw [h1] at hc <;> simp at hc
    | cons a d1t =>
      have ha : isDigit a = true := hd1 a (List.mem_cons_self a d1t)
      have : a = c := by simpa using congrArg (fun l => l.head?) hc
      rw [this] at ha
      rcases hsign with h1 | h1 <;> rw [h1] at ha <;> exact absurd ha (by decide)

theorem matchNum_isSome_of_token (t z : List Char) (h : NumToken t) :
    (matchNum (t ++ z)).isSome := by
  obtain ⟨sg, core, e, hsg, hcore, _, ht⟩ := h
  subst ht
  rcases hsg with h0 | h0 | h0 <;> subst h0
  · -- no sign: head of core is not a sign character
    obtain ⟨c, r, hc⟩ : ∃ c r, core = c :: r := by
      cases core with
      | nil => exact absurd rfl (numCore_ne_nil [] hcore)
      | cons c r => exact ⟨c, r, rfl⟩
    have hns := numCore_head_not_sign core hcore c r hc
    subst hc
    simp only [List.nil_append, List.cons_append, List.append_assoc]
    rw [matchNum, if_neg hns]
    have := matchCore_isSome_of_core (c :: r) (e ++ z) hcore
    simp only [List.cons_append, List.append_assoc] at this
    cases hm : matchCore (c :: (r ++ (e ++ z))) with
    | none => rw [hm] at this; simp at this
    | some p => simp [hm]
  · -- sign '+'
    simp only [List.cons_append, List.nil_append, List.append_assoc]
    rw [matchNum, if_pos (Or.inl rfl)]
    have := matchCore_isSome_of_core core (e ++ z) hcore
    cases hm : matchCore (core ++ (e ++ z)) with
    | none => rw [hm] at this; simp at this
    | some p => simp [hm]
  · -- sign '-'
    simp only [List.cons_append, List.nil_append, List.append_assoc]
    rw [matchNum, if_pos (Or.inr rfl)]
    have := matchCore_isSome_of_core core (e ++ z) hcore
    cases hm : matchCore (core ++ (e ++ z)) with
    | none => rw [hm] at this; simp at this
    | some p => simp [hm]

theorem findNum_isSome_of_infix (t : List Char) (ht : NumToken t) :
    ∀ r₁ s r₂, s = r₁ ++ t ++ r₂ → (findNum s).isSome := by
  intro r₁
  induction r₁ with
  | nil =>
    intro s r₂ hs
    simp only [List.nil_append] at hs
    have hm := matchNum_isSome_of_token t r₂ ht
    obtain ⟨c, w, hc⟩ : ∃ c w, s = c :: w := by
      cases s with
      | nil =>
        exfalso
        cases t with
        | nil => exact numToken_ne_nil [] ht rfl
        | cons a b => simp at hs
      | cons c w => exact ⟨c, w, rfl⟩
    rw [hc] at hs ⊢
    rw [findNum]
    rw [← hs] at hm
    cases hmm : matchNum (c :: w) with
    | none => rw [hmm] at hm; simp at hm
    | some u => simp
  | cons a r₁t ih =>
    intro s r₂ hs
    simp only [List.cons_append] at hs
    rw [hs, findNum]
    cases hm : matchNum (a :: (r₁t ++ t ++ r₂)) with
    | none => exact ih (r₁t ++ t ++ r₂) r₂ rfl
    | some u => simp

theorem matchExp_spec (s : List Char) :
    (matchExp s).1 ++ (matchExp s).2 = s ∧ ExpPart (matchExp s).1 := by
  cases s with
  | nil => exact ⟨rfl, Or.inl rfl⟩
  | cons c r =>
    simp only [matchExp.eq_def]
    by_cases hc : c = 'e' ∨ c = 'E'
    · rw [if_pos hc]
      cases r with
      | nil => exact ⟨rfl, Or.inl rfl⟩
      | cons c2 r2 =>
        dsimp only
        by_cases hc2 : c2 = '+' ∨ c2 = '-'
        · rw [if_pos hc2]
          by_cases hd : (takeDigits r2).1 ≠ []
          · rw [if_pos hd]
            refine ⟨?_, ?_⟩
            · simp only [List.cons_append]
              rw [takeDigits_append r2]
            · refine Or.inr ⟨c, [c2], (takeDigits r2).1, hc, ?_,
                digits_takeWhile r2, hd, rfl⟩
              rcases hc2 with h2 | h2 <;> rw [h2]
              · exact Or.inr (Or.inl rfl)
              · exact Or.inr (Or.inr rfl)
          · rw [if_neg hd]; exact ⟨rfl, Or.inl rfl⟩
        · rw [if_neg hc2]
          by_cases hd : (takeDigits (c2 :: r2)).1 ≠ []
          · rw [if_pos hd]
            refine ⟨?_, ?_⟩
            · simp only [List.cons_append]
              rw [takeDigits_append (c2 :: r2)]
            · exact Or.inr ⟨c, [], (takeDigits (c2 :: r2)).1, hc, Or.inl rfl,
                digits_takeWhile (c2 :: r2), hd, rfl⟩
          · rw [if_neg hd]; exact ⟨rfl, Or.inl rfl⟩
    · rw [if_neg hc]; exact ⟨rfl, Or.inl rfl⟩

theorem matchCore_spec (s c r : List Char) (h : matchCore s = some (c, r)) :
    s = c ++ r ∧ NumCore c := by
  have hsplit := takeDigits_append s
  rw [matchCore.eq_def] at h
  rcases hr : (takeDigits s).2 with _ | ⟨c1, r2⟩
  · rw [hr] at h hsplit
    dsimp only at h
    by_cases h1 : (takeDigits s).1 ≠ []
    · rw [if_pos h1] at h
      simp only [Option.some.injEq, Prod.mk.injEq] at h
      obtain ⟨rfl, rfl⟩ := h
      exact ⟨hsplit.symm, Or.inl ⟨h1, digits_takeWhile s⟩⟩
    · rw [if_neg h1] at h; exact absurd h (by simp)
  · rw [hr] at h hsplit
    dsimp only at h
    by_cases hdot : c1 = '.'
    · rw [if_pos hdot] at h
      by_cases hd2 : (takeDigits r2).1 ≠ []
      · rw [if_pos hd2] at h
        simp only [Option.some.injEq, Prod.mk.injEq] at h
        obtain ⟨rfl, rfl⟩ := h
        subst hdot
        constructor
        · have hrhs : ((takeDigits s).1 ++ '.' :: (takeDigits r2).1) ++ (takeDigits r2).2
              = (takeDigits s).1 ++ '.' :: r2 := by
            simp only [List.append_assoc, List.cons_append]
            rw [takeDigits_append r2]
          rw [hrhs]
          exact hsplit.symm
        · exact Or.inr ⟨(takeDigits s).1, (takeDigits r2).1, digits_takeWhile s,
            digits_takeWhile r2, hd2, rfl⟩
      · rw [if_neg hd2] at h
        by_cases h1 : (takeDigits s).1 ≠ []
        · rw [if_pos h1] at h
          simp only [Option.some.injEq, Prod.mk.injEq] at h
          obtain ⟨rfl, rfl⟩ := h
          exact ⟨hsplit.symm, Or.inl ⟨h1, digits_takeWhile s⟩⟩
        · rw [if_neg h1] at h; exact absurd h (by simp)
    · rw [if_neg hdot] at h
      by_cases h1 : (takeDigits s).1 ≠ []
      · rw [if_pos h1] at h
        simp only [Option.some.injEq, Prod.mk.injEq] at h
        obtain ⟨rfl, rfl⟩ := h
        exact ⟨hsplit.symm, Or.inl ⟨h1, digits_takeWhile s⟩⟩
      · rw [if_neg h1] at h; exact absurd h (by simp)

theorem matchNum_spec (s t : List Char) (h : matchNum s = some t) :
    (∃ r, s = t ++ r) ∧ NumToken t := by
  cases s with
  | nil => simp [matchNum] at h
  | cons a w =>
    rw [matchNum.eq_def] at h
    dsimp only at h
    by_cases hsign : a = '+' ∨ a = '-'
    · rw [if_pos hsign] at h
      rw [Option.map_eq_some'] at h
      obtain ⟨p, hp, ht⟩ := h
      obtain ⟨hw, hcore⟩ := matchCore_spec w p.1 p.2 hp
      obtain ⟨he, hexp⟩ := matchExp_spec p.2
      refine ⟨⟨(matchExp p.2).2, ?_⟩, ?_⟩
      · rw [← ht, hw]
        simp only [List.cons_append, List.append_assoc]
        rw [he]
      · rw [← ht]
        refine ⟨[a], p.1, (matchExp p.2).1, ?_, hcore, hexp, ?_⟩
        · rcases hsign with h1 | h1 <;> rw [h1]
          · exact Or.inr (Or.inl rfl)
          · exact Or.inr (Or.inr rfl)
        · simp
    · rw [if_neg hsign] at h
      rw [Option.map_eq_some'] at h
      obtain ⟨p, hp, ht⟩ := h
      obtain ⟨hw, hcore⟩ := matchCore_spec (a :: w) p.1 p.2 hp
      obtain ⟨he, hexp⟩ := matchExp_spec p.2
      refine ⟨⟨(matchExp p.2).2, ?_⟩, ?_⟩
      · rw [← ht, hw]
        simp only [List.append_assoc]
        rw [he]
      · rw [← ht]
        exact ⟨[], p.1, (matchExp p.2).1, Or.inl rfl, hcore, hexp, by simp⟩

theorem findNum_spec (s t : List Char) (h : findNum s = some t) :
    ∃ r₁ r₂, s = r₁ ++ t ++ r₂ ∧ NumToken t ∧
      ∀ p u q, s = p ++ u ++ q → NumToken u → r₁.length ≤ p.length := by
  induction s with
  | nil => simp [findNum] at h
  | cons a w ih =>
    rw [findNum] at h
    cases hm : matchNum (a :: w) with
    | some u =>
      rw [hm] at h
      simp only [Option.some.injEq] at h
      subst h
      obtain ⟨⟨r, hr⟩, ht⟩ := matchNum_spec (a :: w) u hm
      exact ⟨[], r, by simpa using hr, ht, fun p v q _ _ => Nat.zero_le _⟩
    | none =>
      rw [hm] at h
      obtain ⟨r₁, r₂, hw, ht, hmin⟩ := ih h
      refine ⟨a :: r₁, r₂, by simp [hw], ht, ?_⟩
      intro p u q hs hu
      cases p with
      | nil =>
        exfalso
        simp only [List.nil_append] at hs
        have := matchNum_isSome_of_token u q hu
        rw [← hs, hm] at this
        simp at this
      | cons b p2 =>
        simp only [List.cons_append, List.cons.injEq] at hs
        have := hmin p2 u q hs.2 hu
        simpa using Nat.succ_le_succ this

/-- C5: _parse_current_from_read returns the value of the first number
(optional sign, decimal digits with optional dot, optional exponent) found
in the first comma-separated field after stripping whitespace and removing
the character A, and signals ValueError (modelled as none) exactly when
that cleaned field contains no such number. -/
theorem c5_parse_current (resp : List Char) :
    (parseCurrentFromRead resp = none ↔
      ¬∃ r₁ t r₂, cleanField resp = r₁ ++ t ++ r₂ ∧ NumToken t) ∧
    (∀ x, parseCurrentFromRead resp = some x →
      ∃ r₁ t r₂, cleanField resp = r₁ ++ t ++ r₂ ∧ NumToken t ∧ x = tokenVal t ∧
        ∀ p u q, cleanField resp = p ++ u ++ q → NumToken u →
          r₁.length ≤ p.length) := by
  constructor
  · constructor
    · rintro hnone ⟨r₁, t, r₂, hs, ht⟩
      rw [parseCurrentFromRead, Option.map_eq_none'] at hnone
      have hsome := findNum_isSome_of_infix t ht r₁ (cleanField resp) r₂ hs
      rw [hnone] at hsome
      simp at hsome
    · intro hno
      rw [parseCurrentFromRead]
      cases hf : findNum (cleanField resp) with
      | none => rfl
      | some t =>
        exfalso
        obtain ⟨r₁, r₂, hs, ht, _⟩ := findNum_spec _ t hf
        exact hno ⟨r₁, t, r₂, hs, ht⟩
  · intro x hx
    rw [parseCurrentFromRead, Option.map_eq_some'] at hx
    obtain ⟨t, hf, hval⟩ := hx
    obtain ⟨r₁, r₂, hs, ht, hmin⟩ := findNum_spec _ t hf
    exact ⟨r₁, t, r₂, hs, ht, hval.symm, hmin⟩

/-- Witness for C5: the reply consisting of the single digit 1 parses, and
the parsed value is the value of a number token occurring in the cleaned
field. -/
theorem c5_parse_current_witness :
    ∃ r₁ t r₂, cleanField ['1'] = r₁ ++ t ++ r₂ ∧ NumToken t ∧
      tokenVal ['1'] = tokenVal t ∧
      ∀ p u q, cleanField ['1'] = p ++ u ++ q → NumToken u →
        r₁.length ≤ p.length :=
  (c5_parse_current ['1']).2 (tokenVal ['1']) rfl

/-- Counterexample to C9 as stated: a run that connects and then raises in
the configuration phase (reset or configure_for_source, which sit before
the try/finally of Runner.run) performs no cleanup at all: no output-off
attempt, no VISA close, and self.inst is never reset. -/
theorem c9_counterexample :
    (runnerPostConnectTr [Ev.checkErr] true [] false true true
        ⟨false, false, false, false⟩).1 = [Ev.checkErr] ∧
      Ev.instNone ∉ (runnerPostConnectTr [Ev.checkErr] true [] false true true
        ⟨false, false, false, false⟩).1 ∧
      Ev.visaClose ∉ (runnerPostConnectTr [Ev.checkErr] true [] false true true
        ⟨false, false, false, false⟩).1 ∧
      Ev.attemptOutputOff ∉ (runnerPostConnectTr [Ev.checkErr] true [] false true true
        ⟨false, false, false, false⟩).1 := by
  refine ⟨rfl, ?_, ?_, ?_⟩ <;> decide

/-- C9 amended: every run that gets through the configuration phase and
enters the mode-dispatch try block ends with the best-effort cleanup,
whether the body completes, stops early, or raises, and whatever fails
inside the cleanup: the trace ends with the attempt to return the 6487
source to 0 V (the sleep is skipped when that write raises), the
output-off attempt of shutdown_safe, then the close sequence: another
output-off attempt, the VISA session close, and self.inst set to None, in
that order.  A run that raises during configuration (after connect,
before that try) performs no cleanup. -/
theorem c9_cleanup_after_config (cfgEvents bodyEvents : List Ev)
    (bodyRaises : Bool) (p : ShutFail) :
    (runnerPostConnectTr cfgEvents false bodyEvents bodyRaises true true p).1
      = cfgEvents ++ bodyEvents ++
          (if p.src0 then [Ev.sourceSet 0] else [Ev.sourceSet 0, Ev.sleep (3 / 10)]) ++
          [Ev.attemptOutputOff, Ev.attemptOutputOff, Ev.visaClose, Ev.instNone] := by
  have h := runWithShutdown_trace bodyEvents bodyRaises p
  rw [runnerPostConnectTr, seqTr]
  simp only [if_neg Bool.false_ne_true, h, List.append_assoc]
